import Mathlib

/-!
# Verification of the probe-rs CLI bootstrap pipeline

Shallow embedding of `src/probe-rs/src/bin/probe-rs/main.rs`: the multicall
dispatcher (`multicall_check`), the log rotation routine (`prune_logs`), the
format resolver (`FormatOptions::into_format`), and the control flow of `main`
around logging initialization and subcommand dispatch.

Filesystem and OS effects are modelled by explicit environment records
(directory listings, file-read results, removal outcomes) passed as arguments;
machine integers (`u32`, `u64`, timestamps) are modelled as `Nat` — no
arithmetic that could overflow occurs in the embedded code.
-/

namespace ProbeRsMain

/-! ## Paths: `Path::file_stem` / `Path::extension` on UTF-8 paths

`multicall_check` calls `Path::new(&args[0]).file_stem().and_then(|f| f.to_str())`
and `prune_logs` compares `path.extension()` with `Some(OsStr::new("log"))`.
Arguments are modelled as UTF-8 strings (so `to_str` always succeeds); the
`Path` accessors are embedded following Rust `std::path` semantics on Unix:
components are the nonempty, non-`"."` slash-separated pieces; `file_name` is
the last component unless it is `".."`; the stem/extension split is at the last
dot occurring at index ≥ 1 of the file name. -/

/-- Split a character list on a separator: `splitOnChar '/' "a/b"` gives the
slash-separated pieces, keeping empty pieces (as `str::split` does). -/
def splitOnChar (sep : Char) : List Char → List (List Char)
  | [] => [[]]
  | c :: cs =>
    match splitOnChar sep cs with
    | [] => if c = sep then [[], []] else [[c]]
    | h :: t => if c = sep then [] :: h :: t else (c :: h) :: t

/-- `Path::file_name` for a Unix path: the last component after dropping empty
and `"."` components; `None` when there is no component or it is `".."`. -/
def fileName (p : String) : Option (List Char) :=
  let comps := (splitOnChar '/' p.toList).filter fun c => ¬(c = [] ∨ c = ['.'])
  match comps.getLast? with
  | none => none
  | some c => if c = ['.', '.'] then none else some c

/-- Index of the last `'.'` in a character list, if any. -/
def lastDotIdx : List Char → Option Nat
  | [] => none
  | c :: cs =>
    match lastDotIdx cs with
    | some i => some (i + 1)
    | none => if c = '.' then some 0 else none

/-- `Path::file_stem`: the file name up to (excluding) the last dot at
index ≥ 1; the whole name when there is no such dot (so a leading dot does not
start an extension). -/
def fileStem (p : String) : Option String :=
  (fileName p).map fun n =>
    match n with
    | [] => String.mk []
    | c₀ :: rest =>
      match lastDotIdx rest with
      | none => String.mk (c₀ :: rest)
      | some i => String.mk ((c₀ :: rest).take (i + 1))

/-- `Path::extension`: the part of the file name after the last dot at
index ≥ 1, `none` when there is no such dot. -/
def extension (p : String) : Option String :=
  (fileName p).bind fun n =>
    match n with
    | [] => none
    | _ :: rest =>
      match lastDotIdx rest with
      | none => none
      | some i => some (String.mk (rest.drop (i + 1)))

/-! ## `multicall_check`

```rust
fn multicall_check(args: &[OsString], want: &str) -> Option<Vec<OsString>> {
    let argv0 = Path::new(&args[0]);
    if let Some(command) = argv0.file_stem().and_then(|f| f.to_str()) {
        if command == want {
            return Some(args.to_vec());
        }
    }
    if let Some(command) = args.get(1).and_then(|f| f.to_str()) {
        if command == want {
            return Some(args[1..].to_vec());
        }
    }
    None
}
```

`args[0]` on an empty slice panics; the panic is modelled as `Except.error`. -/

/-- The abort that slice indexing out of bounds produces. -/
inductive Panic
  | indexOutOfBounds
deriving DecidableEq, Repr

instance {ε α : Type _} [DecidableEq ε] [DecidableEq α] : DecidableEq (Except ε α) := fun
  | .error e, .error f =>
    if h : e = f then .isTrue (h ▸ rfl) else .isFalse fun hh => h (Except.error.inj hh)
  | .error _, .ok _ => .isFalse Except.noConfusion
  | .ok _, .error _ => .isFalse Except.noConfusion
  | .ok a, .ok b =>
    if h : a = b then .isTrue (h ▸ rfl) else .isFalse fun hh => h (Except.ok.inj hh)

/-- The second branch of `multicall_check`: `args.get(1)` compared with `want`;
on a match the slice `args[1..]` (which still starts with the matched token)
is returned. -/
def secondArgCheck (args : List String) (want : String) : Option (List String) :=
  match args[1]? with
  | some command => if command = want then some (args.drop 1) else none
  | none => none

/-- Embedding of `multicall_check`. -/
def multicall_check (args : List String) (want : String) :
    Except Panic (Option (List String)) :=
  match args with
  | [] => Except.error Panic.indexOutOfBounds
  | argv0 :: _ =>
    Except.ok <|
      match fileStem argv0 with
      | some command =>
        if command = want then some args else secondArgCheck args want
      | none => secondArgCheck args want

end ProbeRsMain

namespace ProbeRsMain

/-! Sanity checks for the path model (Rust `std::path` behaviour). -/

example : fileStem "target/debug/cargo-flash" = some "cargo-flash" := by decide
example : fileStem "probe-rs.exe" = some "probe-rs" := by decide
example : fileStem ".gitignore" = some ".gitignore" := by decide
example : fileStem "a/b/foo.tar.gz" = some "foo.tar" := by decide
example : fileStem ".." = none := by decide
example : fileStem "" = none := by decide
example : extension "dir/20240101.log" = some "log" := by decide
example : extension "noext" = none := by decide
example : extension ".log" = none := by decide

example :
    multicall_check ["/usr/bin/cargo-flash", "--chip", "X"] "cargo-flash" =
      Except.ok (some ["/usr/bin/cargo-flash", "--chip", "X"]) := by decide

example :
    multicall_check ["probe-rs", "cargo-embed", "--chip"] "cargo-embed" =
      Except.ok (some ["cargo-embed", "--chip"]) := by decide

example : multicall_check ["probe-rs", "run"] "cargo-flash" = Except.ok none := by
  decide

/-! ## `prune_logs`

```rust
const MAX_LOG_FILES: usize = 20;

fn prune_logs(directory: &Path) -> Result<(), anyhow::Error> {
    let mut log_files = fs::read_dir(directory)?
        .filter_map(|entry| {
            if let Ok(entry) = entry {
                let path = entry.path();
                if path.extension() == Some(OsStr::new("log")) {
                    let metadata = fs::metadata(&path).ok()?;
                    let last_modified = metadata.created().ok()?;
                    Some((path, last_modified))
                } else {
                    None
                }
            } else {
                None
            }
        })
        .collect_vec();
    log_files.sort_unstable_by_key(|(_, b)| Reverse(*b));
    for (path, _) in log_files.iter().skip(MAX_LOG_FILES) {
        fs::remove_file(path)?;
    }
    Ok(())
}
```

The directory is modelled as the outcome of `fs::read_dir`: `none` when
`read_dir` itself fails, otherwise a list of entries where `none` stands for an
`Err` entry (skipped by the `if let Ok`). A `RawEntry` records the entry's full
path and `created`, the combined outcome of `fs::metadata(&path)` and
`metadata.created()` (`none` when either fails — both are flattened by
`.ok()?`). `fs::remove_file` outcomes are given by `removeOk`.
`sort_unstable_by_key(Reverse(created))` sorts descending by creation time;
the tie order of the unstable sort is unspecified, and is realized here by
insertion sort under the total relation «later or equally recent first». -/

/-- Maximum number of log files retained by rotation. -/
def MAX_LOG_FILES : Nat := 20

/-- One `Ok` entry of `fs::read_dir`: its path, and the creation timestamp when
both `fs::metadata` and `created()` succeed. -/
structure RawEntry where
  path : String
  created : Option Nat
deriving DecidableEq, Repr

/-- The filesystem as seen by `prune_logs`. -/
structure FsDir where
  readDir : Option (List (Option RawEntry))
  removeOk : String → Bool

/-- The `filter_map` closure applied to one `read_dir` entry: keep `Ok`
entries whose extension is `log` and whose metadata and creation time are
readable. -/
def logCandidate : Option RawEntry → Option (String × Nat)
  | none => none
  | some ent =>
    if extension ent.path = some "log" then
      match ent.created with
      | some t => some (ent.path, t)
      | none => none
    else none

/-- The `filter_map` stage of `prune_logs`. -/
def logCandidates (entries : List (Option RawEntry)) : List (String × Nat) :=
  entries.filterMap logCandidate

/-- «x sorts no later than y»: x was created at the same time or later. -/
def createdDesc (x y : String × Nat) : Prop := y.2 ≤ x.2

instance : DecidableRel createdDesc := fun x y => Nat.decLe y.2 x.2

instance : IsTotal (String × Nat) createdDesc := ⟨fun a b => Nat.le_total b.2 a.2⟩

instance : IsTrans (String × Nat) createdDesc :=
  ⟨fun _ _ _ hab hbc => Nat.le_trans hbc hab⟩

/-- `sort_unstable_by_key(|(_, b)| Reverse(*b))`: most recently created first. -/
def sortByCreatedDesc (l : List (String × Nat)) : List (String × Nat) :=
  List.insertionSort createdDesc l

/-- The deletion candidates: everything beyond the `MAX_LOG_FILES` most
recently created files. -/
def deleteCandidates (entries : List (Option RawEntry)) : List (String × Nat) :=
  (sortByCreatedDesc (logCandidates entries)).drop MAX_LOG_FILES

/-- Observable outcome of the deletion loop: `remove_file` calls made in
order, those that succeeded, and the path of the first failing call (the `?`
aborts the loop there). -/
structure PruneOutcome where
  attempted : List String
  deleted : List String
  err : Option String
deriving DecidableEq, Repr

/-- The `for` loop over the deletion candidates with `fs::remove_file(path)?`. -/
def deleteLoop (removeOk : String → Bool) : List (String × Nat) → PruneOutcome
  | [] => ⟨[], [], none⟩
  | (p, _) :: rest =>
    if removeOk p then
      let o := deleteLoop removeOk rest
      ⟨p :: o.attempted, p :: o.deleted, o.err⟩
    else
      ⟨[p], [], some p⟩

/-- Result of `prune_logs`: `read_dir` failure (propagated by `?`), or the
deletion loop's outcome (whose `err` field, when set, is the propagated
`remove_file` failure). -/
inductive PruneResult
  | readDirFailed
  | ran (o : PruneOutcome)
deriving DecidableEq, Repr

/-- Embedding of `prune_logs`. -/
def prune_logs (d : FsDir) : PruneResult :=
  match d.readDir with
  | none => PruneResult.readDirFailed
  | some entries => PruneResult.ran (deleteLoop d.removeOk (deleteCandidates entries))

example :
    prune_logs ⟨some [some ⟨"a.log", some 5⟩, none, some ⟨"b.txt", some 1⟩], fun _ => true⟩ =
      PruneResult.ran ⟨[], [], none⟩ := by decide

/-! ## `FormatOptions::into_format`

```rust
pub fn into_format(self, target: &Target) -> anyhow::Result<Format> {
    let format = self.format.unwrap_or_else(|| match target.default_format {
        probe_rs_target::BinaryFormat::Idf => Format::Idf(Default::default()),
        probe_rs_target::BinaryFormat::Raw => Default::default(),
    });
    Ok(match format {
        Format::Bin(_) => Format::Bin(BinOptions {
            base_address: self.base_address,
            skip: self.skip,
        }),
        Format::Hex => Format::Hex,
        Format::Elf => Format::Elf,
        Format::Idf(_) => {
            let bootloader = if let Some(path) = self.idf_bootloader {
                Some(std::fs::read(path)?)
            } else {
                None
            };
            let partition_table = if let Some(path) = self.idf_partition_table {
                Some(esp_idf_part::PartitionTable::try_from(std::fs::read(path)?)?)
            } else {
                None
            };
            Format::Idf(IdfOptions { bootloader, partition_table })
        }
        Format::Uf2 => Format::Uf2,
    })
}
```

`probe_rs_target::BinaryFormat` has exactly the two variants matched on
(`Idf`, `Raw` — the match is exhaustive), and of `Target` only the
`default_format` field is consulted. File bytes are `List Nat`; errors are the
propagated messages (`anyhow` wraps the underlying `io::Error` / parse error
unchanged — no `.context` is attached here, unlike e.g.
`default_logfile_location`). `std::fs::read` and the external partition-table
parser are supplied by an `FsWorld` environment. -/

/-- `probe_rs_target::BinaryFormat`: the target's declared default family. -/
inductive BinaryFormat
  | Idf
  | Raw
deriving DecidableEq, Repr

/-- The slice of `probe_rs::Target` that `into_format` consults. -/
structure Target where
  default_format : BinaryFormat
deriving DecidableEq, Repr

/-- `probe_rs::flashing::BinOptions`. -/
structure BinOptions where
  base_address : Option Nat
  skip : Nat
deriving DecidableEq, Repr

/-- Modelled from the spec: the external partition-table parser's output, «a
structured partition table» (`esp_idf_part::PartitionTable`, not under
`src/`); its internal structure is irrelevant here, only its identity. -/
structure PartitionTable where
  entries : List Nat
deriving DecidableEq, Repr

/-- `probe_rs::flashing::IdfOptions`. -/
structure IdfOptions where
  bootloader : Option (List Nat)
  partition_table : Option PartitionTable
deriving DecidableEq, Repr

/-- Modelled from the spec: the derived `Default` for `IdfOptions` (not under
`src/`) — «with both optional artifacts absent». -/
def IdfOptions.default : IdfOptions := ⟨none, none⟩

/-- `probe_rs::flashing::Format`. -/
inductive Format
  | Bin (opts : BinOptions)
  | Hex
  | Elf
  | Idf (opts : IdfOptions)
  | Uf2
deriving DecidableEq, Repr

/-- Modelled from the spec: `Format::default()` (not under `src/`) is the
«hard-coded default family» — ELF, per the source doc comment «Finally, if
neither of the above cases are true, we default to ELF». -/
def Format.default : Format := Format.Elf

/-- `FormatOptions` (paths as strings, byte counts as `Nat`). -/
structure FormatOptions where
  format : Option Format
  base_address : Option Nat
  skip : Nat
  idf_bootloader : Option String
  idf_partition_table : Option String

/-- The filesystem and external parser as seen by `into_format`:
`std::fs::read`, and `esp_idf_part::PartitionTable::try_from` (modelled from
the spec: an external parse that either yields a structured table or fails).
Errors are the messages the environment produces; `into_format` propagates
them with bare `?`. -/
structure FsWorld where
  readFile : String → Except String (List Nat)
  parseTable : List Nat → Except String PartitionTable

/-- The `let format = self.format.unwrap_or_else(...)` step. -/
def resolveFamily (o : FormatOptions) (target : Target) : Format :=
  o.format.getD
    (match target.default_format with
     | BinaryFormat.Idf => Format.Idf IdfOptions.default
     | BinaryFormat.Raw => Format.default)

/-- `if let Some(path) = self.idf_bootloader { Some(std::fs::read(path)?) }`. -/
def readBootloader (w : FsWorld) : Option String → Except String (Option (List Nat))
  | some path =>
    match w.readFile path with
    | Except.ok bytes => Except.ok (some bytes)
    | Except.error e => Except.error e
  | none => Except.ok none

/-- The partition-table branch: read the file, then parse its bytes. -/
def readPartitionTable (w : FsWorld) :
    Option String → Except String (Option PartitionTable)
  | some path =>
    match w.readFile path with
    | Except.ok bytes =>
      match w.parseTable bytes with
      | Except.ok table => Except.ok (some table)
      | Except.error e => Except.error e
    | Except.error e => Except.error e
  | none => Except.ok none

/-- Embedding of `FormatOptions::into_format`. -/
def into_format (w : FsWorld) (o : FormatOptions) (target : Target) :
    Except String Format :=
  match resolveFamily o target with
  | Format.Bin _ => Except.ok (Format.Bin ⟨o.base_address, o.skip⟩)
  | Format.Hex => Except.ok Format.Hex
  | Format.Elf => Except.ok Format.Elf
  | Format.Idf _ =>
    match readBootloader w o.idf_bootloader with
    | Except.error e => Except.error e
    | Except.ok bootloader =>
      match readPartitionTable w o.idf_partition_table with
      | Except.error e => Except.error e
      | Except.ok partition_table =>
        Except.ok (Format.Idf ⟨bootloader, partition_table⟩)
  | Format.Uf2 => Except.ok Format.Uf2

/-! ## `main`: bootstrap order and dispatch

`main` (lines 251–361) is modelled as a trace of the bootstrap events it
performs, driven by an environment `MainWorld` supplying the outcomes of the
external steps (argument vector, local-offset query, `clap` parse, default
log-path computation, the log directory, `File::create`, handler results).
The trace records, in program order: the multicall handlers, the DAP-server
handler, `default_logfile_location`, `prune_logs`, `File::create` + the
non-blocking appender guard, `tracing_subscriber ... .init()`, and the
subcommand dispatch. -/

/-- The subcommands of the CLI (payloads are irrelevant to the bootstrap
order and are dropped). -/
inductive Subcommand
  | DapServer
  | List
  | Info
  | Reset
  | Gdb
  | Debug
  | Download
  | Erase
  | Run
  | Attach
  | Trace
  | Itm
  | Chip
  | Benchmark
  | Profile
  | Read
  | Write
  | Test
deriving DecidableEq, Repr

/-- The global options and subcommand produced by `Cli::parse_from`. -/
structure Cli where
  log_file : Option String
  log_to_folder : Bool
  subcommand : Subcommand

/-- Observable bootstrap events of `main`, in program order. -/
inductive Event
  | cargoFlashRun
  | cargoEmbedRun
  | dapRun
  | resolveDefaultLogPath
  | pruneLogsRun
  | acquireGuard
  | installSinks
  | runSubcommand (s : Subcommand)
deriving DecidableEq, Repr

/-- Coarse process outcome. -/
inductive MainResult
  | panicked
  | errored
  | ok
deriving DecidableEq, Repr

/-- Environment for one `main` run. -/
structure MainWorld where
  args : List String
  utcOffsetOk : Bool
  parseOk : Bool
  parsed : Cli
  defaultLogfile : Option String
  dir : FsDir
  fileCreateOk : Bool
  dapOk : Bool
  cmdOk : Bool

/-- The `log_path` resolution (lines 277–290): explicit `--log-file` wins;
otherwise `--log-to-folder` computes the default location and runs
`prune_logs` (both failures propagate via `?`); otherwise no file sink.
Second component: `none` models a fatal error, `some lp` the resolved
optional log path. -/
def logPathStep (w : MainWorld) : List Event × Option (Option String) :=
  match w.parsed.log_file with
  | some p => ([], some (some p))
  | none =>
    if w.parsed.log_to_folder then
      match w.defaultLogfile with
      | none => ([Event.resolveDefaultLogPath], none)
      | some p =>
        match prune_logs w.dir with
        | PruneResult.readDirFailed =>
          ([Event.resolveDefaultLogPath, Event.pruneLogsRun], none)
        | PruneResult.ran o =>
          if o.err.isSome then
            ([Event.resolveDefaultLogPath, Event.pruneLogsRun], none)
          else
            ([Event.resolveDefaultLogPath, Event.pruneLogsRun], some (some p))
    else ([], some none)

/-- Sink installation (lines 292–329): with a log path, `File::create` (whose
failure propagates before any sink is installed), then the non-blocking
appender guard is acquired and both sinks are installed; without one, only
the stderr sink is installed. -/
def sinkStep (w : MainWorld) (logPath : Option String) : List Event × Bool :=
  match logPath with
  | some _ =>
    if w.fileCreateOk then ([Event.acquireGuard, Event.installSinks], true)
    else ([], false)
  | none => ([Event.installSinks], true)

/-- Log-path resolution, sink installation, then dispatch of a (non-DAP)
subcommand (lines 277–361). -/
def dispatchStep (w : MainWorld) (s : Subcommand) : List Event × MainResult :=
  match (logPathStep w).2 with
  | none => ((logPathStep w).1, MainResult.errored)
  | some lp =>
    if (sinkStep w lp).2 then
      ((logPathStep w).1 ++ (sinkStep w lp).1 ++ [Event.runSubcommand s],
        if w.cmdOk then MainResult.ok else MainResult.errored)
    else ((logPathStep w).1, MainResult.errored)

/-- Embedding of `main`: multicall checks for the two aliases, local-offset
capture, `clap` parse (failure exits before anything else), the DAP-server
special case, then `dispatchStep`. -/
def mainRun (w : MainWorld) : List Event × MainResult :=
  match multicall_check w.args "cargo-flash" with
  | Except.error _ => ([], MainResult.panicked)
  | Except.ok (some _) => ([Event.cargoFlashRun], MainResult.ok)
  | Except.ok none =>
    match multicall_check w.args "cargo-embed" with
    | Except.error _ => ([], MainResult.panicked)
    | Except.ok (some _) => ([Event.cargoEmbedRun], MainResult.ok)
    | Except.ok none =>
      if w.utcOffsetOk then
        if w.parseOk then
          if w.parsed.subcommand = Subcommand.DapServer then
            ([Event.dapRun], if w.dapOk then MainResult.ok else MainResult.errored)
          else dispatchStep w w.parsed.subcommand
        else ([], MainResult.errored)
      else ([], MainResult.errored)

/-- Whether `needle` occurs as a contiguous segment of `hay` (used to state
that an error message does not mention a path). -/
def containsSeg : List Char → List Char → Bool
  | [], needle => needle.isEmpty
  | c :: t, needle => needle.isPrefixOf (c :: t) || containsSeg t needle

example : containsSeg "abcde".toList "bcd".toList = true := by decide
example : containsSeg "abcde".toList "bd".toList = false := by decide

/-- A directory of 22 readable log files with distinct creation times, whose
entry of creation time 1 cannot be removed. -/
def bestEffortEntries : List (Option RawEntry) :=
  (List.range 22).map fun i => some ⟨Nat.repr i ++ ".log", some i⟩

/-- A directory of 25 readable log files with pairwise distinct creation
times. -/
def sampleLogFiles : List (String × Nat) :=
  (List.range 25).map fun i => (Nat.repr i ++ ".log", i)

/-! ## Claims about `multicall_check` -/

/-- C6: for every non-empty argument vector whose first element's file stem
equals the alias, `multicall_check` returns `Some` of the entire original
argument vector unchanged, regardless of all other arguments; since this holds
even when the first positional argument also equals the alias, the basename
check takes priority over the first-argument check. -/
theorem multicall_check_basename_match (args : List String) (want a0 : String)
    (h0 : args.head? = some a0) (h1 : fileStem a0 = some want) :
    multicall_check args want = Except.ok (some args) := by
  cases args with
  | nil => simp at h0
  | cons x rest =>
    simp only [List.head?, Option.some.injEq] at h0
    subst h0
    simp [multicall_check, h1]

theorem multicall_check_basename_match_witness :
    multicall_check ["/usr/local/bin/cargo-flash", "cargo-flash", "--chip"] "cargo-flash" =
      Except.ok (some ["/usr/local/bin/cargo-flash", "cargo-flash", "--chip"]) :=
  multicall_check_basename_match _ _ "/usr/local/bin/cargo-flash" rfl (by decide)

/-- C1 as stated is false: on a first-positional-argument match the returned
vector is `args[1..]`, which still **contains** the alias token (the program
name is what gets dropped). At the concrete input below the result keeps
`"cargo-flash"` as its head and equals neither the vector with the alias
token erased nor the remainder after the alias. -/
theorem multicall_check_second_arg_counterexample :
    multicall_check ["target/debug/probe-rs", "cargo-flash", "--chip", "X"] "cargo-flash" =
        Except.ok (some ["cargo-flash", "--chip", "X"]) ∧
      "cargo-flash" ∈ ["cargo-flash", "--chip", "X"] ∧
      (["cargo-flash", "--chip", "X"] : List String) ≠
        (["target/debug/probe-rs", "cargo-flash", "--chip", "X"] : List String).eraseIdx 1 ∧
      (["cargo-flash", "--chip", "X"] : List String) ≠
        (["target/debug/probe-rs", "cargo-flash", "--chip", "X"] : List String).drop 2 :=
  ⟨by decide, by decide, by decide, by decide⟩

/-- C1 amended: for every argument vector whose first element's file stem does
not equal the alias but whose first positional argument (the second element)
equals the alias, `multicall_check` returns `Some` of the vector with the
leading program-name element removed (`args[1..]`); the alias token itself is
kept and becomes the head of the forwarded vector. -/
theorem multicall_check_second_arg_match (args : List String) (want a0 : String)
    (h0 : args.head? = some a0) (h1 : fileStem a0 ≠ some want)
    (h2 : args[1]? = some want) :
    multicall_check args want = Except.ok (some (args.drop 1)) := by
  cases args with
  | nil => simp at h0
  | cons x rest =>
    simp only [List.head?, Option.some.injEq] at h0
    subst h0
    unfold multicall_check
    cases hf : fileStem x with
    | none => simp [hf, secondArgCheck, h2]
    | some c =>
      have hc : c ≠ want := fun hcw => h1 (hcw ▸ hf)
      simp [hf, secondArgCheck, h2, hc]

theorem multicall_check_second_arg_match_witness :
    multicall_check ["probe-rs", "cargo-embed", "--list"] "cargo-embed" =
      Except.ok (some ["cargo-embed", "--list"]) :=
  multicall_check_second_arg_match _ _ "probe-rs" rfl (by decide) rfl

/-- C9: `multicall_check` unconditionally indexes `args[0]`, so it is total
(never panics) exactly on non-empty argument vectors; on the empty vector it
aborts (index out of bounds) instead of returning `None`. -/
theorem multicall_check_empty_args_panics (args : List String) (want : String) :
    (args = [] → multicall_check args want = Except.error Panic.indexOutOfBounds) ∧
    (args ≠ [] → ∃ r, multicall_check args want = Except.ok r) := by
  constructor
  · rintro rfl
    rfl
  · intro h
    cases args with
    | nil => exact absurd rfl h
    | cons x rest => exact ⟨_, rfl⟩

theorem multicall_check_empty_args_panics_witness :
    multicall_check [] "cargo-flash" = Except.error Panic.indexOutOfBounds ∧
      ∃ r, multicall_check ["probe-rs"] "cargo-flash" = Except.ok r :=
  ⟨(multicall_check_empty_args_panics [] "cargo-flash").1 rfl,
   (multicall_check_empty_args_panics ["probe-rs"] "cargo-flash").2 (by simp)⟩

/-! ## Claims about `FormatOptions::into_format` -/

/-- C4: when an explicit format is set, `into_format` yields an identical
result for every pair of targets — the explicit choice always wins and the
target's declared default format is irrelevant. -/
theorem into_format_explicit_format_ignores_target (w : FsWorld) (o : FormatOptions)
    (f : Format) (h : o.format = some f) (t₁ t₂ : Target) :
    into_format w o t₁ = into_format w o t₂ := by
  simp only [into_format, resolveFamily, h, Option.getD_some]

theorem into_format_explicit_format_ignores_target_witness :
    into_format ⟨fun _ => Except.error "io", fun _ => Except.error "parse"⟩
        ⟨some (Format.Bin ⟨some 0, 4⟩), some 0, 4, none, none⟩ ⟨BinaryFormat.Idf⟩ =
      into_format ⟨fun _ => Except.error "io", fun _ => Except.error "parse"⟩
        ⟨some (Format.Bin ⟨some 0, 4⟩), some 0, 4, none, none⟩ ⟨BinaryFormat.Raw⟩ :=
  into_format_explicit_format_ignores_target _ _ (Format.Bin ⟨some 0, 4⟩) rfl _ _

/-- C7: whenever the resolved family is raw-binary, the resolved format
carries exactly the user-supplied optional base address and skip-byte count,
for every environment and target. -/
theorem into_format_bin_carries_params (w : FsWorld) (o : FormatOptions)
    (t : Target) (b : BinOptions) (h : resolveFamily o t = Format.Bin b) :
    into_format w o t = Except.ok (Format.Bin ⟨o.base_address, o.skip⟩) := by
  unfold into_format
  rw [h]

/-- C5 as stated is false: `into_format` propagates the read/parse failure
with a bare `?`, attaching no context, so the surfaced error is exactly the
environment's error and need not name the offending path. Concretely: the
bootloader path `"boot.bin"` fails to read with the path-free message Rust's
`std::fs::read` produces, and the resulting error does not contain the
path. -/
theorem into_format_idf_error_lacks_path :
    into_format
        ⟨fun _ => Except.error "No such file or directory (os error 2)",
         fun _ => Except.error "parse"⟩
        ⟨some (Format.Idf ⟨none, none⟩), none, 0, some "boot.bin", none⟩
        ⟨BinaryFormat.Raw⟩ =
      Except.error "No such file or directory (os error 2)" ∧
    containsSeg "No such file or directory (os error 2)".toList "boot.bin".toList =
      false :=
  ⟨rfl, by decide⟩

/-- C5 amended: when the resolved family is Idf, a supplied bootloader path
whose bytes cannot be read makes `into_format` fail by propagating the read
error unchanged (no path context is attached by `into_format`); a supplied
partition-table path is read and then parsed, and a read or parse failure
likewise makes `into_format` fail with the propagated error (the bootloader
read having already succeeded, per evaluation order); when neither path is
supplied the resolved Idf format carries both artifacts absent. -/
theorem into_format_idf_artifact_errors (w : FsWorld) (o : FormatOptions)
    (t : Target) (io : IdfOptions) (hIdf : resolveFamily o t = Format.Idf io) :
    (∀ p e, o.idf_bootloader = some p → w.readFile p = Except.error e →
      into_format w o t = Except.error e) ∧
    (∀ bl p e, readBootloader w o.idf_bootloader = Except.ok bl →
      o.idf_partition_table = some p → w.readFile p = Except.error e →
      into_format w o t = Except.error e) ∧
    (∀ bl p bytes e, readBootloader w o.idf_bootloader = Except.ok bl →
      o.idf_partition_table = some p → w.readFile p = Except.ok bytes →
      w.parseTable bytes = Except.error e →
      into_format w o t = Except.error e) ∧
    (o.idf_bootloader = none → o.idf_partition_table = none →
      into_format w o t = Except.ok (Format.Idf ⟨none, none⟩)) := by
  refine ⟨?_, ?_, ?_, ?_⟩
  · intro p e hp he
    unfold into_format
    rw [hIdf]
    simp [readBootloader, hp, he]
  · intro bl p e hbl hp he
    unfold into_format
    rw [hIdf, hbl]
    simp [readPartitionTable, hp, he]
  · intro bl p bytes e hbl hp hb he
    unfold into_format
    rw [hIdf, hbl]
    simp [readPartitionTable, hp, hb, he]
  · intro hb hp
    unfold into_format
    rw [hIdf]
    simp [readBootloader, readPartitionTable, hb, hp]

theorem into_format_idf_artifact_errors_witness :
    into_format
        ⟨fun p => if p = "pt.csv" then Except.ok [1, 2] else Except.error "io",
         fun _ => Except.error "invalid magic"⟩
        ⟨some (Format.Idf ⟨none, none⟩), none, 0, none, some "pt.csv"⟩
        ⟨BinaryFormat.Idf⟩ =
      Except.error "invalid magic" :=
  (into_format_idf_artifact_errors
      ⟨fun p => if p = "pt.csv" then Except.ok [1, 2] else Except.error "io",
       fun _ => Except.error "invalid magic"⟩
      ⟨some (Format.Idf ⟨none, none⟩), none, 0, none, some "pt.csv"⟩
      ⟨BinaryFormat.Idf⟩ ⟨none, none⟩ rfl).2.2.1 none "pt.csv" [1, 2]
    "invalid magic" rfl rfl (by decide) rfl

theorem into_format_bin_carries_params_witness :
    into_format ⟨fun _ => Except.error "io", fun _ => Except.error "parse"⟩
        ⟨some (Format.Bin ⟨none, 0⟩), some 0x08000000, 16, none, none⟩
        ⟨BinaryFormat.Raw⟩ =
      Except.ok (Format.Bin ⟨some 0x08000000, 16⟩) :=
  into_format_bin_carries_params _ _ _ ⟨none, 0⟩ rfl

/-! ## Helper lemmas about `prune_logs` -/

/-- When every removal succeeds, the deletion loop attempts and deletes every
candidate, in order, and reports no error. -/
theorem deleteLoop_all_ok (removeOk : String → Bool) :
    ∀ l : List (String × Nat), (∀ q ∈ l, removeOk q.1 = true) →
      deleteLoop removeOk l = ⟨l.map Prod.fst, l.map Prod.fst, none⟩
  | [], _ => rfl
  | (p, t) :: rest, h => by
    have hp : removeOk p = true := h (p, t) (List.mem_cons_self _ _)
    have ih := deleteLoop_all_ok removeOk rest fun q hq => h q (List.mem_cons_of_mem _ hq)
    simp [deleteLoop, hp, ih]

/-- The `?` in the deletion loop: the first failing removal ends the loop;
everything before it was removed, nothing after it is attempted. -/
theorem deleteLoop_stops (removeOk : String → Bool) (p : String) (t : Nat)
    (post : List (String × Nat)) :
    ∀ pre : List (String × Nat), (∀ q ∈ pre, removeOk q.1 = true) →
      removeOk p = false →
      deleteLoop removeOk (pre ++ (p, t) :: post) =
        ⟨pre.map Prod.fst ++ [p], pre.map Prod.fst, some p⟩
  | [], _, hp => by simp [deleteLoop, hp]
  | (q, s) :: pre, h, hp => by
    have hq : removeOk q = true := h (q, s) (List.mem_cons_self _ _)
    have ih := deleteLoop_stops removeOk p t post pre
      (fun r hr => h r (List.mem_cons_of_mem _ hr)) hp
    simp [deleteLoop, hq, ih]

/-- Every deleted path was one of the candidate paths. -/
theorem deleteLoop_deleted_sub (removeOk : String → Bool) :
    ∀ l : List (String × Nat), ∀ p, p ∈ (deleteLoop removeOk l).deleted →
      p ∈ l.map Prod.fst
  | [], p, h => by simp [deleteLoop] at h
  | (q, t) :: rest, p, h => by
    by_cases hq : removeOk q = true
    · simp only [deleteLoop, hq, if_true] at h
      rcases List.mem_cons.mp h with rfl | h'
      · simp
      · exact List.mem_cons_of_mem _ (deleteLoop_deleted_sub removeOk rest p h')
    · rw [Bool.not_eq_true] at hq
      simp [deleteLoop, hq] at h

/-- Every deletion candidate is one of the log candidates. -/
theorem deleteCandidates_mem (es : List (Option RawEntry)) (q : String × Nat)
    (h : q ∈ deleteCandidates es) : q ∈ logCandidates es := by
  unfold deleteCandidates sortByCreatedDesc at h
  exact (List.mem_insertionSort createdDesc).mp (List.mem_of_mem_drop h)

/-- A log candidate comes from an `Ok` entry with the `log` extension and a
readable creation time. -/
theorem logCandidates_mem (es : List (Option RawEntry)) (p : String) (t : Nat)
    (h : (p, t) ∈ logCandidates es) :
    ∃ ent, some ent ∈ es ∧ ent.path = p ∧ ent.created = some t ∧
      extension ent.path = some "log" := by
  unfold logCandidates at h
  obtain ⟨e, he, hmap⟩ := List.mem_filterMap.mp h
  match e with
  | none => simp [logCandidate] at hmap
  | some ent =>
    by_cases hx : extension ent.path = some "log"
    · cases hc : ent.created with
      | none => simp [logCandidate, hx, hc] at hmap
      | some t' =>
        simp only [logCandidate, hx, if_true, hc, Option.some.injEq, Prod.mk.injEq] at hmap
        exact ⟨ent, he, hmap.1, by rw [hc, hmap.2], hx⟩
    · simp [logCandidate, hx] at hmap

/-- On a directory of `Ok` entries that all carry the `log` extension and a
readable creation time, the `filter_map` stage keeps them all. -/
theorem logCandidates_pure (c : List (String × Nat))
    (h : ∀ pt ∈ c, extension pt.1 = some "log") :
    logCandidates (c.map fun pt => some ⟨pt.1, some pt.2⟩) = c := by
  induction c with
  | nil => rfl
  | cons x xs ih =>
    have hx : extension x.1 = some "log" := h x (List.mem_cons_self _ _)
    have ihx := ih fun q hq => h q (List.mem_cons_of_mem _ hq)
    unfold logCandidates at *
    simp only [List.map_cons, List.filterMap_cons, logCandidate, hx, if_true]
    rw [ihx]

/-- In a `Pairwise R` list, `R` relates every kept element (the first `n`) to
every dropped one. -/
theorem pairwise_take_drop {α : Type _} {R : α → α → Prop} {l : List α}
    (h : List.Pairwise R l) (n : Nat) :
    ∀ y ∈ l.take n, ∀ x ∈ l.drop n, R y x := by
  have h' : List.Pairwise R (l.take n ++ l.drop n) := by
    rw [List.take_append_drop]
    exact h
  exact (List.pairwise_append.mp h').2.2

/-! ## Claims about `prune_logs` -/

/-- C2 as stated is false: the deletion loop uses `fs::remove_file(path)?`,
so the first deletion failure aborts the remaining cleanup. Concretely, with
22 log files (deletion candidates `1.log` then `0.log`) where removing
`1.log` fails, `prune_logs` attempts only `1.log` and returns its error;
candidate `0.log` is never attempted. -/
theorem prune_logs_best_effort_counterexample :
    prune_logs ⟨some bestEffortEntries, fun p => !(p == "1.log")⟩ =
        PruneResult.ran ⟨["1.log"], [], some "1.log"⟩ ∧
      ("0.log", 0) ∈ deleteCandidates bestEffortEntries ∧
      "0.log" ∉ (["1.log"] : List String) :=
  ⟨by decide, by decide, by decide⟩

/-- C2 amended: a failure to delete a candidate aborts the remaining cleanup:
`prune_logs` removes the candidates preceding the first failing one, returns
that failure immediately, and attempts none of the candidates after it. -/
theorem prune_logs_aborts_on_first_failure (d : FsDir)
    (es : List (Option RawEntry)) (pre post : List (String × Nat))
    (p : String) (t : Nat)
    (h1 : d.readDir = some es)
    (h2 : deleteCandidates es = pre ++ (p, t) :: post)
    (h3 : ∀ q ∈ pre, d.removeOk q.1 = true)
    (h4 : d.removeOk p = false) :
    prune_logs d =
      PruneResult.ran ⟨pre.map Prod.fst ++ [p], pre.map Prod.fst, some p⟩ := by
  simp only [prune_logs, h1]
  rw [h2, deleteLoop_stops d.removeOk p t post pre h3 h4]

theorem prune_logs_aborts_on_first_failure_witness :
    prune_logs ⟨some ((List.range 21).map fun i => some ⟨Nat.repr i ++ ".log", some i⟩),
        fun _ => false⟩ =
      PruneResult.ran ⟨["0.log"], [], some "0.log"⟩ :=
  prune_logs_aborts_on_first_failure _
    ((List.range 21).map fun i => some ⟨Nat.repr i ++ ".log", some i⟩)
    [] [] "0.log" 0 rfl (by decide) (by simp) rfl

/-- C3: on a directory of 25 `.log` files with readable metadata and
pairwise-distinct creation times, with all deletions succeeding, `prune_logs`
deletes exactly the files beyond the 20 most recently created — 5 files, each
strictly older than every retained one, the deleted and retained files
together being exactly the directory's log files — and a file whose extension
is not `.log` is never deleted by any run of `prune_logs`. -/
theorem prune_logs_retains_twenty_most_recent (d : FsDir)
    (c : List (String × Nat))
    (h1 : d.readDir = some (c.map fun pt => some ⟨pt.1, some pt.2⟩))
    (h2 : ∀ pt ∈ c, extension pt.1 = some "log")
    (h3 : (c.map Prod.snd).Nodup)
    (h4 : c.length = 25)
    (h5 : ∀ p, d.removeOk p = true) :
    prune_logs d =
        PruneResult.ran
          ⟨((sortByCreatedDesc c).drop MAX_LOG_FILES).map Prod.fst,
           ((sortByCreatedDesc c).drop MAX_LOG_FILES).map Prod.fst, none⟩ ∧
      ((sortByCreatedDesc c).take MAX_LOG_FILES).length = 20 ∧
      ((sortByCreatedDesc c).drop MAX_LOG_FILES).length = 5 ∧
      ((sortByCreatedDesc c).take MAX_LOG_FILES ++
          (sortByCreatedDesc c).drop MAX_LOG_FILES).Perm c ∧
      (∀ x ∈ (sortByCreatedDesc c).drop MAX_LOG_FILES,
        ∀ y ∈ (sortByCreatedDesc c).take MAX_LOG_FILES, x.2 < y.2) ∧
      (∀ d' o p, prune_logs d' = PruneResult.ran o → p ∈ o.deleted →
        extension p = some "log") := by
  have hperm : (sortByCreatedDesc c).Perm c := List.perm_insertionSort createdDesc c
  have hlen : (sortByCreatedDesc c).length = 25 := by
    rw [hperm.length_eq, h4]
  refine ⟨?_, ?_, ?_, ?_, ?_, ?_⟩
  · simp only [prune_logs, h1, deleteCandidates]
    rw [logCandidates_pure c h2, deleteLoop_all_ok d.removeOk _ fun q _ => h5 q.1]
  · rw [List.length_take, hlen]
    rfl
  · rw [List.length_drop, hlen]
    rfl
  · rw [List.take_append_drop]
    exact hperm
  · have hs : List.Sorted createdDesc (sortByCreatedDesc c) :=
      List.sorted_insertionSort createdDesc c
    have hnd : ((sortByCreatedDesc c).map Prod.snd).Nodup :=
      (hperm.map Prod.snd).nodup_iff.mpr h3
    have hps : List.Pairwise (fun a b : String × Nat => a.2 ≠ b.2)
        (sortByCreatedDesc c) := List.pairwise_map.mp hnd
    intro x hx y hy
    have hle : x.2 ≤ y.2 := pairwise_take_drop hs MAX_LOG_FILES y hy x hx
    have hne : y.2 ≠ x.2 := pairwise_take_drop hps MAX_LOG_FILES y hy x hx
    exact Nat.lt_of_le_of_ne hle fun heq => hne heq.symm
  · intro d' o p ho hp
    unfold prune_logs at ho
    cases hrd : d'.readDir with
    | none => rw [hrd] at ho; exact absurd ho (by simp)
    | some es =>
      rw [hrd] at ho
      have ho' : deleteLoop d'.removeOk (deleteCandidates es) = o :=
        PruneResult.ran.inj ho
      rw [← ho'] at hp
      obtain ⟨q, hq, hqp⟩ :=
        List.mem_map.mp (deleteLoop_deleted_sub d'.removeOk _ p hp)
      obtain ⟨ent, _, hpath, _, hext⟩ :=
        logCandidates_mem es q.1 q.2 (deleteCandidates_mem es q hq)
      rw [← hqp, ← hpath]
      exact hext

theorem prune_logs_retains_twenty_most_recent_witness :
    prune_logs ⟨some (sampleLogFiles.map fun pt => some ⟨pt.1, some pt.2⟩),
        fun _ => true⟩ =
      PruneResult.ran
        ⟨((sortByCreatedDesc sampleLogFiles).drop MAX_LOG_FILES).map Prod.fst,
         ((sortByCreatedDesc sampleLogFiles).drop MAX_LOG_FILES).map Prod.fst,
         none⟩ :=
  (prune_logs_retains_twenty_most_recent _ sampleLogFiles rfl (by decide)
    (by decide) (by decide) fun _ => rfl).1

/-- C10: a `.log` entry whose metadata or creation timestamp cannot be read
is excluded from the candidate list and never deleted; consequently a
directory can retain more than `MAX_LOG_FILES` log files after rotation —
concretely, 21 log entries, all with unreadable creation times, survive a run
untouched. -/
theorem prune_logs_unreadable_entries_never_deleted (d : FsDir)
    (es : List (Option RawEntry)) (p : String)
    (h1 : d.readDir = some es)
    (h2 : ∀ ent, some ent ∈ es → ent.path = p → ent.created = none) :
    (∀ o, prune_logs d = PruneResult.ran o → p ∉ o.deleted) ∧
      (prune_logs ⟨some ((List.range 21).map fun i =>
          some ⟨Nat.repr i ++ ".log", none⟩), fun _ => true⟩ =
        PruneResult.ran ⟨[], [], none⟩ ∧
      (((List.range 21).map fun i =>
          some (⟨Nat.repr i ++ ".log", none⟩ : RawEntry)).filterMap id).countP
        (fun ent => extension ent.path = some "log") = 21) := by
  refine ⟨?_, by decide, by decide⟩
  intro o ho hp
  unfold prune_logs at ho
  rw [h1] at ho
  have ho' : deleteLoop d.removeOk (deleteCandidates es) = o :=
    PruneResult.ran.inj ho
  rw [← ho'] at hp
  obtain ⟨q, hq, hqp⟩ :=
    List.mem_map.mp (deleteLoop_deleted_sub d.removeOk _ p hp)
  obtain ⟨ent, hin, hpath, hcr, _⟩ :=
    logCandidates_mem es q.1 q.2 (deleteCandidates_mem es q hq)
  have hnone : ent.created = none := h2 ent hin (by rw [hpath, hqp])
  rw [hnone] at hcr
  exact Option.noConfusion hcr

theorem prune_logs_unreadable_entries_never_deleted_witness :
    "x.log" ∉ PruneOutcome.deleted ⟨[], [], none⟩ :=
  (prune_logs_unreadable_entries_never_deleted
      ⟨some [some ⟨"x.log", none⟩], fun _ => true⟩ [some ⟨"x.log", none⟩]
      "x.log" rfl (fun ent h _ => by
        rw [List.mem_singleton] at h
        rw [Option.some.inj h])).1
    ⟨[], [], none⟩ (by decide)

/-! ## Claims about the bootstrap order in `main` -/

/-- Log-path resolution never dispatches a subcommand. -/
theorem runSubcommand_not_mem_logPathStep (w : MainWorld) (s : Subcommand) :
    Event.runSubcommand s ∉ (logPathStep w).1 := by
  unfold logPathStep
  cases hlf : w.parsed.log_file with
  | some p => simp
  | none =>
    cases ht : w.parsed.log_to_folder with
    | false => simp [ht]
    | true =>
      cases hdl : w.defaultLogfile with
      | none => simp [ht]
      | some q =>
        cases hpr : prune_logs w.dir with
        | readDirFailed => simp [ht]
        | ran o =>
          cases he : o.err.isSome <;> simp [ht, he]

/-- When sink installation succeeds, its event list is guard acquisition
followed by sink installation (file sink present) or sink installation alone
(stderr only). -/
theorem sinkStep_true_shape (w : MainWorld) (lp : Option String)
    (h : (sinkStep w lp).2 = true) :
    (sinkStep w lp).1 = [Event.acquireGuard, Event.installSinks] ∨
      (sinkStep w lp).1 = [Event.installSinks] := by
  cases lp with
  | none => right; rfl
  | some p =>
    cases hf : w.fileCreateOk with
    | true => left; simp [sinkStep, hf]
    | false => rw [sinkStep] at h; simp [hf] at h

/-- In the non-DAP path, whenever a subcommand is dispatched the sinks were
installed earlier in the trace. -/
theorem dispatchStep_installs_before_run (w : MainWorld) (s' s : Subcommand)
    (h : Event.runSubcommand s ∈ (dispatchStep w s').1) :
    ∃ l r, (dispatchStep w s').1 = l ++ Event.installSinks :: r ∧
      Event.runSubcommand s ∈ r := by
  have hle := runSubcommand_not_mem_logPathStep w s
  unfold dispatchStep at h ⊢
  rcases hlp : (logPathStep w).2 with _ | lp
  · simp only [hlp] at h
    exact absurd h hle
  · simp only [hlp] at h ⊢
    cases hok : (sinkStep w lp).2 with
    | false =>
      simp only [hok, if_false, Bool.false_eq_true] at h ⊢
      exact absurd h hle
    | true =>
      simp only [hok, if_true] at h ⊢
      rcases sinkStep_true_shape w lp hok with hge | hge <;> rw [hge] at h ⊢
      · have hss : s = s' := by
          simp [List.mem_append, hle] at h
          exact h
        exact ⟨(logPathStep w).1 ++ [Event.acquireGuard],
          [Event.runSubcommand s'], by simp, by simp [hss]⟩
      · have hss : s = s' := by
          simp [List.mem_append, hle] at h
          exact h
        exact ⟨(logPathStep w).1, [Event.runSubcommand s'], by simp, by simp [hss]⟩

/-- In every run of `main`, any dispatched subcommand is preceded in the
trace by sink installation. -/
theorem installSinks_before_dispatch (w : MainWorld) (s : Subcommand) :
    Event.runSubcommand s ∈ (mainRun w).1 →
    ∃ l r, (mainRun w).1 = l ++ Event.installSinks :: r ∧
      Event.runSubcommand s ∈ r := by
  rcases hm1 : multicall_check w.args "cargo-flash" with e | r1
  · simp [mainRun, hm1]
  · rcases r1 with _ | v
    · rcases hm2 : multicall_check w.args "cargo-embed" with e2 | r2
      · simp [mainRun, hm1, hm2]
      · rcases r2 with _ | v2
        · cases hu : w.utcOffsetOk with
          | false => simp [mainRun, hm1, hm2, hu]
          | true =>
            cases hp : w.parseOk with
            | false => simp [mainRun, hm1, hm2, hu, hp]
            | true =>
              by_cases hd : w.parsed.subcommand = Subcommand.DapServer
              · simp [mainRun, hm1, hm2, hu, hp, hd]
              · simp only [mainRun, hm1, hm2, hu, hp, hd, if_true, if_false]
                exact dispatchStep_installs_before_run w w.parsed.subcommand s
        · simp [mainRun, hm1, hm2]
    · simp [mainRun, hm1]

/-- C8: with both multicall checks failing, a successful local-offset capture
and a successful parse selecting the DAP-server subcommand, `main` runs only
the DAP handler and returns its result: no default log path is resolved, no
rotation runs, no logging sink is installed, the log-file guard is never
acquired, and no other subcommand is dispatched — the trace is exactly the
DAP handler invocation. Moreover, in every run of `main`, any dispatched
subcommand is preceded in the trace by sink installation, so the DAP server
is the only subcommand that can run before logging initialization. -/
theorem dap_server_dispatched_before_logging (w : MainWorld)
    (hm1 : multicall_check w.args "cargo-flash" = Except.ok none)
    (hm2 : multicall_check w.args "cargo-embed" = Except.ok none)
    (hu : w.utcOffsetOk = true) (hp : w.parseOk = true)
    (hd : w.parsed.subcommand = Subcommand.DapServer) :
    mainRun w = ([Event.dapRun],
        if w.dapOk then MainResult.ok else MainResult.errored) ∧
      ∀ w' s, Event.runSubcommand s ∈ (mainRun w').1 →
        ∃ l r, (mainRun w').1 = l ++ Event.installSinks :: r ∧
          Event.runSubcommand s ∈ r := by
  refine ⟨?_, fun w' s => installSinks_before_dispatch w' s⟩
  simp [mainRun, hm1, hm2, hu, hp, hd]

theorem dap_server_dispatched_before_logging_witness :
    mainRun ⟨["probe-rs"], true, true, ⟨none, false, Subcommand.DapServer⟩,
        none, ⟨some [], fun _ => true⟩, true, true, true⟩ =
      ([Event.dapRun], MainResult.ok) :=
  (dap_server_dispatched_before_logging
      ⟨["probe-rs"], true, true, ⟨none, false, Subcommand.DapServer⟩,
        none, ⟨some [], fun _ => true⟩, true, true, true⟩
      (by decide) (by decide) rfl rfl rfl).1

end ProbeRsMain
